import Mathlib

/-!
Shallow embedding of `api/index.py` from the mastodon2memosAPI repository:
the HTML sanitizer (`clean_html_content`), the timestamp normalizer
(`datetime_to_timestamp`), the post converter (`convert_mastodon_to_memo`),
the pagination walker (`fetch_all_mastodon_posts`), the account fetcher
(`get_mastodon_account_info`) and the list endpoint (`get_memos`),
together with theorems settling specification claims C1-C10.

Conventions of the embedding:
* Python dict key lookups that may fail (`post['id']`) are modelled by
  `Option` fields (`none` = key missing); `dict.get(k, default)` is
  modelled by `Option.getD`.
* Python exceptions are modelled by `Except`; FastAPI's `HTTPException`
  becomes the `HExn` record (status code + detail).
* The HTML string handed to BeautifulSoup is modelled by its parse
  forest (`List Html`); `BeautifulSoup`'s tolerant string parsing itself
  is outside the embedding, the sanitizer is modelled on the tree it
  produces, which is what the Python code manipulates.
* Network responses are supplied by oracles (`Nat → PageResp` for the
  paginated statuses endpoint, `AcctResp` for the account endpoint).
-/

namespace M2M

/-- Whitespace characters stripped by Python's `str.strip()` (ASCII range,
which is all the repository's data exercises). -/
def isPyWs (c : Char) : Bool :=
  c = ' ' || c = '\t' || c = '\n' || c = '\r' || c = '\u000B' || c = '\u000C'

/-- Python `line.strip()` on a character list. -/
def pyStripChars (l : List Char) : List Char :=
  ((l.dropWhile isPyWs).reverse.dropWhile isPyWs).reverse

/-- Python `text.split(newline-char)` on character lists: always returns at
least one group, splitting at every newline character. -/
def splitNl : List Char → List (List Char)
  | [] => [[]]
  | c :: r =>
    match splitNl r with
    | [] => [[]]
    | g :: gs => if c = '\n' then [] :: g :: gs else (c :: g) :: gs

/-- Python `sep.join(groups)` on character lists. -/
def joinSep (sep : List Char) : List (List Char) → List Char
  | [] => []
  | [g] => g
  | g :: gs => g ++ sep ++ joinSep sep gs

/-- Parse tree of the HTML body, as produced by `BeautifulSoup(...,
'html.parser')`: text nodes (`NavigableString`) and elements with a tag
name, an optional `href` attribute (the only attribute the code reads)
and children. -/
inductive Html where
  | text : String → Html
  | elem : String → Option String → List Html → Html
deriving Repr

/-- All strings of a parse forest in document order (BeautifulSoup's
`_all_strings`, which both `get_text()` variants iterate). -/
def forestStrings : List Html → List (List Char)
  | [] => []
  | .text s :: rest => s.data :: forestStrings rest
  | .elem _ _ cs :: rest => forestStrings cs ++ forestStrings rest
termination_by l => sizeOf l
decreasing_by all_goals (simp <;> omega)

/-- The replacement string the loop `for a in soup.find_all('a')` builds for
one anchor: `f"{text} ({href})"` when `href and text and href != text`,
else the bare visible text.  `href` is `a.get('href', '')`, `text` is
`a.get_text()` (concatenation of the subtree's strings). -/
def anchorText (href : Option String) (cs : List Html) : List Char :=
  let t : List Char := (forestStrings cs).flatten
  let h : List Char := (href.getD "").data
  if h ≠ [] && t ≠ [] && h ≠ t then t ++ (" (".data) ++ h ++ (")".data) else t

/-- The anchor-rewriting pass of `clean_html_content`: every anchor element
is replaced (outermost first, as `find_all`/`replace_with` does) by the
text node `anchorText` computes from its original subtree. -/
def forestReplace : List Html → List Html
  | [] => []
  | .text s :: rest => .text s :: forestReplace rest
  | .elem tag href cs :: rest =>
    if tag = "a" then .text ⟨anchorText href cs⟩ :: forestReplace rest
    else .elem tag href (forestReplace cs) :: forestReplace rest
termination_by l => sizeOf l
decreasing_by all_goals (simp <;> omega)

/-- The `lines` loop of `clean_html_content`: strip each line, keep the
non-empty ones in order. -/
def collectLines : List (List Char) → List (List Char)
  | [] => []
  | l :: ls =>
    let c := pyStripChars l
    if c ≠ [] then c :: collectLines ls else collectLines ls

/-- `clean_html_content` from `api/index.py`: rewrite anchors, extract all
text with newline as separator (`soup.get_text(separator=newline)`), strip
every line, drop the ones that become empty, and rejoin with newlines. -/
def clean_html_content (doc : List Html) : String :=
  let doc2 := forestReplace doc
  let text := joinSep ['\n'] (forestStrings doc2)
  ⟨joinSep ['\n'] (collectLines (splitNl text))⟩

/-- Anchor rewriting as claim C4 states it: replace the anchor by
`text ++ " (" ++ href ++ ")"` exactly when the `href` attribute is present
and differs from the visible text, otherwise by the visible text alone. -/
def claimAnchorText (href : Option String) (cs : List Html) : List Char :=
  let t : List Char := (forestStrings cs).flatten
  match href with
  | some h => if h.data ≠ t then t ++ (" (".data) ++ h.data ++ (")".data) else t
  | none => t

/-- The sanitizer exactly as claim C4 words it (anchor rule of
`claimAnchorText`, then split / strip / drop-empty / rejoin). -/
def claimClean (doc : List Html) : String :=
  let doc2 := claimReplace doc
  let text := joinSep ['\n'] (forestStrings doc2)
  ⟨joinSep ['\n'] ((((splitNl text).map pyStripChars).filter (· ≠ [])))⟩
where
  claimReplace : List Html → List Html
    | [] => []
    | .text s :: rest => .text s :: claimReplace rest
    | .elem tag href cs :: rest =>
      if tag = "a" then .text ⟨claimAnchorText href cs⟩ :: claimReplace rest
      else .elem tag href (claimReplace cs) :: claimReplace rest
  termination_by l => sizeOf l
  decreasing_by all_goals (simp <;> omega)

/-- The sanitizer as the amended claim C4 words it: anchors are rewritten to
`"text (href)"` exactly when href and visible text are both non-empty and
differ (the code's condition), the extracted text is split at newlines,
each line stripped, empty lines dropped, order preserved. -/
def amendedClean (doc : List Html) : String :=
  let doc2 := forestReplace doc
  let text := joinSep ['\n'] (forestStrings doc2)
  ⟨joinSep ['\n'] ((((splitNl text).map pyStripChars).filter (· ≠ [])))⟩

/-- No `<` character occurs in any text node or href attribute of the
forest (markup lives only in the tree structure). -/
def noLtForest : List Html → Bool
  | [] => true
  | .text s :: rest => s.data.all (· ≠ '<') && noLtForest rest
  | .elem _ href cs :: rest =>
    (href.getD "").data.all (· ≠ '<') && noLtForest cs && noLtForest rest
termination_by l => sizeOf l
decreasing_by all_goals (simp <;> omega)

/-! ### Timestamp normalizer (`datetime_to_timestamp`) -/

/-- Value of a decimal digit character, `none` otherwise. -/
def digitVal : Char → Option Nat :=
  fun c => if c.isDigit then some (c.toNat - 48) else none

/-- Read exactly two digits. -/
def read2 : List Char → Option (Nat × List Char)
  | a :: b :: r => do pure ((← digitVal a) * 10 + (← digitVal b), r)
  | _ => none

/-- Read exactly four digits. -/
def read4 : List Char → Option (Nat × List Char)
  | a :: b :: c :: d :: r => do
    pure ((((← digitVal a) * 10 + (← digitVal b)) * 10 + (← digitVal c)) * 10
      + (← digitVal d), r)
  | _ => none

/-- Consume one expected character. -/
def expectChar (c : Char) : List Char → Option (List Char)
  | x :: r => if x = c then some r else none
  | [] => none

/-- Gregorian leap-year test. -/
def isLeap (y : Nat) : Bool := (y % 4 = 0 && y % 100 ≠ 0) || y % 400 = 0

/-- Length of a month. -/
def daysInMonth (y m : Nat) : Nat :=
  if m = 2 then (if isLeap y then 29 else 28)
  else if m = 4 || m = 6 || m = 9 || m = 11 then 30 else 31

/-- Days since 1970-01-01 in the proleptic Gregorian calendar
(days_from_civil); valid for `1 ≤ y`. -/
def daysFromCivil (y m d : Nat) : Int :=
  let yi : Int := if m ≤ 2 then (y : Int) - 1 else (y : Int)
  let era : Int := yi / 400
  let yoe : Int := yi - era * 400
  let mp : Int := if m > 2 then (m : Int) - 3 else (m : Int) + 9
  let doy : Int := (153 * mp + 2) / 5 + (d : Int) - 1
  let doe : Int := yoe * 365 + yoe / 4 - yoe / 100 + doy
  era * 146097 + doe - 719468

/-- Fractional part of a time string: exactly three (milliseconds) or six
(microseconds) digits, as `datetime.fromisoformat` demands; result in
microseconds. -/
def readFracDigits (l : List Char) : Option Nat :=
  match l with
  | [a, b, c] => do
    pure ((((← digitVal a) * 10 + (← digitVal b)) * 10 + (← digitVal c)) * 1000)
  | [a, b, c, d, e, f] => do
    pure ((((((← digitVal a) * 10 + (← digitVal b)) * 10 + (← digitVal c)) * 10
      + (← digitVal d)) * 10 + (← digitVal e)) * 10 + (← digitVal f))
  | _ => none

/-- Parse `HH[:MM[:SS[.fff[fff]]]]` (the shape `fromisoformat` accepts for
both the time of day and the UTC offset); returns seconds plus leftover
microseconds. -/
def parseTimeOfDay (l : List Char) : Option (Nat × Nat) := do
  let (h, r) ← read2 l
  if h > 23 then none else
  match r with
  | [] => some (h * 3600, 0)
  | ':' :: r => do
    let (mi, r) ← read2 r
    if mi > 59 then none else
    match r with
    | [] => some (h * 3600 + mi * 60, 0)
    | ':' :: r => do
      let (s, r) ← read2 r
      if s > 59 then none else
      match r with
      | [] => some (h * 3600 + mi * 60 + s, 0)
      | '.' :: fr => do
        let micro ← readFracDigits fr
        some (h * 3600 + mi * 60 + s, micro)
      | _ => none
    | _ => none
  | _ => none

/-- Result of a successful `datetime.fromisoformat`: the parsed instant as
whole epoch seconds plus leftover microseconds when the wall-clock fields
are read as UTC, plus the explicit UTC offset in seconds (`none` = naive
datetime, no offset in the string). -/
structure PyDt where
  secs : Int
  micro : Nat
  off : Option Int
deriving DecidableEq, Repr

/-- Model of Python's `datetime.fromisoformat` (pre-3.11 strict grammar, the
one the code's `replace` of the Z suffix is written for):
`YYYY-MM-DD[<sep>HH[:MM[:SS[.fff[fff]]]][±HH:MM[...]]]`.  The offset part is
split off at the first `+`/`-` of the time string, exactly like CPython's
`_parse_isoformat_time`. -/
def fromisoformat (l : List Char) : Option PyDt := do
  let (y, r) ← read4 l
  let r ← expectChar '-' r
  let (mo, r) ← read2 r
  let r ← expectChar '-' r
  let (d, r) ← read2 r
  if y < 1 || mo < 1 || mo > 12 || d < 1 || d > daysInMonth y mo then none else
  match r with
  | [] => some ⟨(daysFromCivil y mo d) * 86400, 0, none⟩
  | _sep :: tstr =>
    let split : Option (List Char × Char × List Char) :=
      match tstr.findIdx? (· = '-') with
      | some i => some (tstr.take i, '-', tstr.drop (i + 1))
      | none =>
        match tstr.findIdx? (· = '+') with
        | some i => some (tstr.take i, '+', tstr.drop (i + 1))
        | none => none
    match split with
    | none => do
      let (secs, micro) ← parseTimeOfDay tstr
      some ⟨(daysFromCivil y mo d) * 86400 + (secs : Int), micro, none⟩
    | some (timestr, sgn, tzstr) => do
      let (secs, micro) ← parseTimeOfDay timestr
      let (osecs, omicro) ← parseTimeOfDay tzstr
      if omicro ≠ 0 then none else
      some ⟨(daysFromCivil y mo d) * 86400 + (secs : Int), micro,
        some ((if sgn = '-' then -1 else 1) * (osecs : Int))⟩

/-- Python `dt.timestamp()`, kept exact: the real number `fst + snd / 10^6`
(float rounding is idealized away).  An aware datetime subtracts its own
offset, a naive one is interpreted in the process-local timezone whose
offset (seconds east of UTC) is the `localOff` parameter of the model. -/
def dtTimestamp (localOff : Int) (dt : PyDt) : Int × Nat :=
  (dt.secs - dt.off.getD localOff, dt.micro)

/-- Python `int(x)` on a value represented as whole seconds `v.fst` plus a
fractional part `v.snd / 10^6 ∈ [0, 1)`: truncation toward zero, never
rounding (`7.9 → 7`, `-0.5 → 0`). -/
def pyInt (v : Int × Nat) : Int :=
  if v.2 = 0 then v.1 else if v.1 < 0 then v.1 + 1 else v.1

/-- Python `dt_str.replace(Z-char, explicit-utc-offset)`: every occurrence
of `Z` is replaced by `+00:00`. -/
def replaceZ : List Char → List Char
  | [] => []
  | c :: r =>
    if c = 'Z' then '+' :: '0' :: '0' :: ':' :: '0' :: '0' :: replaceZ r
    else c :: replaceZ r

/-- `datetime_to_timestamp` from `api/index.py`: replace `Z` with `+00:00`,
parse, truncate to whole seconds; on any parse failure return the current
UTC time (`now` parameter of the model). -/
def datetime_to_timestamp (localOff now : Int) (s : String) : Int :=
  match fromisoformat (replaceZ s.data) with
  | some dt => pyInt (dtTimestamp localOff dt)
  | none => now

/-! ### Data model and the post converter (`convert_mastodon_to_memo`) -/

/-- A JSON id value as Mastodon-compatible servers deliver it: a string or
an integer. -/
inductive IdVal where
  | s : String → IdVal
  | n : Int → IdVal
deriving DecidableEq, Repr

/-- Python `str(...)` on an id value: identity on strings, decimal
rendering on integers. -/
def pyStrId : IdVal → String
  | .s v => v
  | .n v => toString v

/-- The `account` sub-object of an upstream post; the converter reads the
two keys `display_name` and `username` (each may be missing). -/
structure Account where
  display_name : Option String
  username : Option String
deriving DecidableEq, Repr

/-- One entry of `media_attachments`.  `mtype` stands for the `type` key;
`remote_url := none` models the key being absent or JSON `null` (both make
`media.get(remote-url-key, empty)` falsy in the code only when the value
is also empty, see `mediaResources`). -/
structure Media where
  mtype : Option String
  url : Option String
  remote_url : Option String
deriving DecidableEq, Repr

/-- An upstream Mastodon post as the converter sees it: every key the code
reads, `none` meaning the key is missing from the JSON object.  The HTML
`content` is carried as its parse forest. -/
structure MPost where
  id : Option IdVal
  content : Option (List Html)
  created_at : Option String
  account : Option Account
  visibility : Option String
  pinned : Option Bool
  media_attachments : Option (List Media)
deriving Repr

/-- Output resource record (`MemoResource` model in the code). -/
structure MemoResource where
  type : String
  link : String
  externalLink : String
deriving DecidableEq, Repr

/-- Output relation record (`MemoRelation` model in the code; the converter
always emits an empty relation list). -/
structure MemoRelation where
  type : String
  targetId : Int
deriving DecidableEq, Repr

/-- Output note record (`Memo` model in the code). -/
structure Memo where
  id : String
  creatorId : Int
  creatorName : String
  creatorUsername : String
  createdTs : Int
  updatedTs : Int
  displayTs : Int
  content : String
  resourceList : List MemoResource
  relationList : List MemoRelation
  visibility : String
  pinned : Bool
  rowStatus : String
deriving DecidableEq, Repr

/-- FastAPI `HTTPException` (status code plus detail string). -/
structure HExn where
  code : Nat
  detail : String
deriving DecidableEq, Repr

/-- The media loop of the converter: each attachment needs its `type` and
`url` keys (a missing one raises KeyError, failing the whole conversion);
`externalLink` is `media.get(remote-url-key, empty) or media[url-key]`,
i.e. the remote url when present (not null) and non-empty, else the
primary url. -/
def mediaResources : List Media → Option (List MemoResource)
  | [] => some []
  | a :: rest => do
    let t ← a.mtype
    let u ← a.url
    let tail ← mediaResources rest
    some ({ type := t, link := u,
            externalLink := if (a.remote_url.getD "") = "" then u
              else a.remote_url.getD "" } :: tail)

/-- The body of the `try` block of `convert_mastodon_to_memo`: `none` when
any required key is missing (Python KeyError). -/
def convertBody (localOff now : Int) (p : MPost) : Option Memo := do
  let pid ← p.id
  let c ← p.content
  let ca ← p.created_at
  let acct ← p.account
  let dn ← acct.display_name
  let un ← acct.username
  let vis ← p.visibility
  let rl ← mediaResources (p.media_attachments.getD [])
  let ts := datetime_to_timestamp localOff now ca
  some { id := pyStrId pid
         creatorId := 1
         creatorName := dn
         creatorUsername := un
         createdTs := ts
         updatedTs := ts
         displayTs := ts
         content := clean_html_content c
         resourceList := rl
         relationList := []
         visibility := if vis = "public" then "PUBLIC" else "PRIVATE"
         pinned := p.pinned.getD false
         rowStatus := "NORMAL" }

/-- `convert_mastodon_to_memo` from `api/index.py`: any exception in the
body is logged and re-raised as `HTTPException(500, conversion-error)`. -/
def convert_mastodon_to_memo (localOff now : Int) (p : MPost) : Except HExn Memo :=
  match convertBody localOff now p with
  | some m => .ok m
  | none => .error ⟨500, "Conversion error"⟩

/-! ### Pagination walker (`fetch_all_mastodon_posts`) -/

/-- `settings.MAX_PAGE_SIZE` (Mastodon per-request maximum). -/
def MAX_PAGE_SIZE : Nat := 80

/-- `settings.MAX_PAGES`. -/
def MAX_PAGES : Nat := 5

/-- Python truthiness of an id value (`if max_id:`): empty strings and the
integer zero are falsy. -/
def truthyId : IdVal → Bool
  | .s v => v ≠ ""
  | .n v => v ≠ 0

/-- The query parameters of one page request that the claims talk about:
the page size and the `max_id` cursor (included only when the current
`max_id` variable is truthy; the exclude flags are constant through a
walk and are omitted). -/
structure FetchReq where
  limit : Nat
  maxId : Option IdVal
deriving DecidableEq, Repr

/-- The request built from the walker's `max_id` variable: the cursor
parameter is added only when the variable holds a truthy value. -/
def reqOf (maxId : Option IdVal) : FetchReq :=
  ⟨MAX_PAGE_SIZE,
    match maxId with
    | none => none
    | some v => if truthyId v then some v else none⟩

/-- Upstream behaviour of one page request, indexed by request number:
a JSON list of posts (HTTP 2xx), an HTTP error status that
`raise_for_status` turns into `httpx.HTTPStatusError`, or any other
exception (network error, invalid JSON, ...). -/
inductive PageResp where
  | ok : List MPost → PageResp
  | status : Nat → PageResp
  | exn : PageResp

/-- The `for _ in range(max_pages)` loop of `fetch_all_mastodon_posts`.
Returns the requests issued together with the outcome: a 401 status is
re-raised as `HTTPException(401, auth-failed)` aborting the walk, any
other failure breaks the loop keeping the accumulated posts, an empty
page breaks the loop, and a page whose last item has no `id` key raises
KeyError after the page was already accumulated, which the generic
`except` clause turns into a break. -/
def fetchLoop (env : Nat → PageResp) :
    Nat → Nat → Option IdVal → List MPost → List FetchReq →
    List FetchReq × Except HExn (List MPost)
  | 0, _, _, acc, reqs => (reqs, .ok acc)
  | fuel + 1, k, maxId, acc, reqs =>
    let reqs2 := reqs ++ [reqOf maxId]
    match env k with
    | .exn => (reqs2, .ok acc)
    | .status c =>
      if c = 401 then (reqs2, .error ⟨401, "Authentication failed"⟩)
      else (reqs2, .ok acc)
    | .ok posts =>
      match posts.getLast? with
      | none => (reqs2, .ok acc)
      | some lastP =>
        match lastP.id with
        | none => (reqs2, .ok (acc ++ posts))
        | some v => fetchLoop env fuel (k + 1) (some v) (acc ++ posts) reqs2

/-- `fetch_all_mastodon_posts` from `api/index.py`. -/
def fetch_all_mastodon_posts (env : Nat → PageResp) (maxPages : Nat) :
    List FetchReq × Except HExn (List MPost) :=
  fetchLoop env maxPages 0 none [] []

/-! ### Account fetcher (`get_mastodon_account_info`) -/

/-- Upstream behaviour of the single account-profile request. -/
inductive AcctResp where
  | ok : String → String → AcctResp
  | status : Nat → AcctResp
  | exn : AcctResp

/-- The username / display name pair the bridge works with. -/
structure AccountInfo where
  username : String
  display_name : String
deriving DecidableEq, Repr

/-- `get_mastodon_account_info` from `api/index.py`: an HTTP status error
is re-raised as an `HTTPException` (401 distinctly, others as a
failed-to-fetch error); only every other exception is swallowed into the
placeholder account. -/
def get_mastodon_account_info (resp : AcctResp) : Except HExn AccountInfo :=
  match resp with
  | .ok u d => .ok ⟨u, d⟩
  | .status c =>
    if c = 401 then .error ⟨401, "Authentication failed"⟩
    else .error ⟨c, "Failed to fetch account info"⟩
  | .exn => .ok ⟨"unknown", "Unknown User"⟩

/-! ### List endpoint (`get_memos`) -/

/-- Python truthiness filter `not creatorId or memo.creatorId == creatorId`
(with short-circuit evaluation): `None` and `0` disable the filter. -/
def passCreator (creatorId : Option Int) (m : Memo) : Bool :=
  match creatorId with
  | none => true
  | some v => if v = 0 then true else m.creatorId = v

/-- Python truthiness filter `not rowStatus or memo.rowStatus == rowStatus`:
`None` and the empty string disable the filter. -/
def passRow (rowStatus : Option String) (m : Memo) : Bool :=
  match rowStatus with
  | none => true
  | some v => if v = "" then true else m.rowStatus = v

/-- The conversion loop of `get_memos`: each post is converted inside a
`try` whose `except` clause logs and `continue`s, so a failing record is
skipped; a successful record is appended when both truthiness filters
pass. -/
def memosOf (localOff now : Int) (creatorId : Option Int) (rowStatus : Option String) :
    List MPost → List Memo
  | [] => []
  | p :: rest =>
    match convert_mastodon_to_memo localOff now p with
    | .error _ => memosOf localOff now creatorId rowStatus rest
    | .ok m =>
      if passCreator creatorId m && passRow rowStatus m then
        m :: memosOf localOff now creatorId rowStatus rest
      else
        memosOf localOff now creatorId rowStatus rest

/-- Python `limit or len(memos)`: `None` and `0` fall back to the list
length. -/
def pyOrLen (limit : Option Int) (len : Nat) : Int :=
  match limit with
  | none => (len : Int)
  | some v => if v = 0 then (len : Int) else v

/-- Python slice `xs[:k]` for an `int` bound: non-negative bounds take a
prefix, negative bounds count from the end, clamped at zero. -/
def pySliceTo (xs : List Memo) (k : Int) : List Memo :=
  if 0 ≤ k then xs.take k.toNat else xs.take ((xs.length : Int) + k).toNat

/-- `get_memos` from `api/index.py`.  The walk either succeeds or raises
the `HTTPException(401, ...)` built in `fetch_all_mastodon_posts`; that
exception is not an `httpx.HTTPError`, so it falls through to the blanket
`except Exception` clause which logs it and raises
`HTTPException(500, internal-server-error)`.  On success the converted
and filtered list is cut to `min(limit or len(memos),
MAX_PAGE_SIZE * MAX_PAGES)` entries. -/
def get_memos (env : Nat → PageResp) (localOff now : Int)
    (creatorId : Option Int) (rowStatus : Option String) (limit : Option Int) :
    Except HExn (List Memo) :=
  match (fetch_all_mastodon_posts env MAX_PAGES).2 with
  | .error _ => .error ⟨500, "Internal server error"⟩
  | .ok posts =>
    let memos := memosOf localOff now creatorId rowStatus posts
    let actualLimit : Int :=
      min (pyOrLen limit memos.length) ((MAX_PAGE_SIZE : Int) * (MAX_PAGES : Int))
    .ok (pySliceTo memos actualLimit)

/-! ### Helper lemmas about the converter -/

/-- Successful conversion is exactly a successful `try` body. -/
theorem convert_ok_iff (localOff now : Int) (p : MPost) (m : Memo) :
    convert_mastodon_to_memo localOff now p = .ok m ↔
      convertBody localOff now p = some m := by
  cases h : convertBody localOff now p <;>
    simp [convert_mastodon_to_memo, h]

/-- Inversion of a successful `try` body into its field reads. -/
theorem convertBody_some (localOff now : Int) (p : MPost) (m : Memo)
    (h : convertBody localOff now p = some m) :
    ∃ pid c ca acct dn un vis rl,
      p.id = some pid ∧ p.content = some c ∧ p.created_at = some ca ∧
      p.account = some acct ∧ acct.display_name = some dn ∧
      acct.username = some un ∧ p.visibility = some vis ∧
      mediaResources (p.media_attachments.getD []) = some rl ∧
      m = { id := pyStrId pid
            creatorId := 1
            creatorName := dn
            creatorUsername := un
            createdTs := datetime_to_timestamp localOff now ca
            updatedTs := datetime_to_timestamp localOff now ca
            displayTs := datetime_to_timestamp localOff now ca
            content := clean_html_content c
            resourceList := rl
            relationList := []
            visibility := if vis = "public" then "PUBLIC" else "PRIVATE"
            pinned := p.pinned.getD false
            rowStatus := "NORMAL" } := by
  simp only [convertBody, bind, Option.bind_eq_some, Option.some.injEq] at h
  obtain ⟨pid, hpid, c, hc, ca, hca, acct, hacct, dn, hdn, un, hun, vis, hvis, rl, hrl, hm⟩ := h
  exact ⟨pid, c, ca, acct, dn, un, vis, rl, hpid, hc, hca, hacct, hdn, hun, hvis, hrl, hm.symm⟩

/-- Elementwise description of the media loop. -/
theorem mediaResources_spec (ms : List Media) (rl : List MemoResource)
    (h : mediaResources ms = some rl) :
    ∀ (i : Nat) (r : MemoResource), rl[i]? = some r →
      ∃ a : Media, ms[i]? = some a ∧ a.mtype = some r.type ∧ a.url = some r.link ∧
        r.externalLink =
          (if (a.remote_url.getD "") = "" then r.link else a.remote_url.getD "") := by
  induction ms generalizing rl with
  | nil =>
    simp only [mediaResources, Option.some.injEq] at h
    subst h; simp
  | cons a rest ih =>
    simp only [mediaResources, bind, Option.bind_eq_some, Option.some.injEq] at h
    obtain ⟨t, ht, u, hu, tail, htail, hr⟩ := h
    subst hr
    intro i r hir
    cases i with
    | zero =>
      simp only [List.getElem?_cons_zero, Option.some.injEq] at hir
      exact ⟨a, by simp [ht, hu, ← hir]⟩
    | succ j =>
      simp only [List.getElem?_cons_succ] at hir ⊢
      exact ih tail htail j r hir

/-! ### Claim C8: visibility collapse -/

/-- C8 (confirmed).  For every converted post the output visibility is
PUBLIC exactly when the upstream visibility value is the exact string
`public`; every other value collapses to PRIVATE. -/
theorem c8_visibility_collapse (localOff now : Int) (p : MPost) (m : Memo) (v : String)
    (hok : convert_mastodon_to_memo localOff now p = .ok m)
    (hv : p.visibility = some v) :
    (m.visibility = "PUBLIC" ↔ v = "public") ∧
      (v ≠ "public" → m.visibility = "PRIVATE") := by
  obtain ⟨pid, c, ca, acct, dn, un, vis, rl, _, _, _, _, _, _, hvis, _, hm⟩ :=
    convertBody_some localOff now p m ((convert_ok_iff localOff now p m).mp hok)
  rw [hv] at hvis
  obtain rfl : v = vis := by injection hvis
  subst hm
  by_cases hp : v = "public" <;> simp [hp]

/-! ### Claim C6: ids are stringified -/

/-- C6 (confirmed).  Whether the upstream id arrives as a JSON number or
as a string, the converted record's id is its decimal string form. -/
theorem c6_id_stringified (localOff now : Int) (p : MPost) (m : Memo)
    (hok : convert_mastodon_to_memo localOff now p = .ok m) :
    (∀ k : Int, p.id = some (.n k) → m.id = toString k) ∧
      (∀ s : String, p.id = some (.s s) → m.id = s) := by
  obtain ⟨pid, c, ca, acct, dn, un, vis, rl, hpid, _, _, _, _, _, _, _, hm⟩ :=
    convertBody_some localOff now p m ((convert_ok_iff localOff now p m).mp hok)
  subst hm
  constructor
  · intro k hk
    rw [hk] at hpid
    obtain rfl : IdVal.n k = pid := by injection hpid
    simp [pyStrId]
  · intro s hs
    rw [hs] at hpid
    obtain rfl : IdVal.s s = pid := by injection hpid
    simp [pyStrId]

/-! ### Claim C7: media attachment mapping -/

/-- A concrete post whose single attachment has an empty primary url and
no remote url. -/
def emptyUrlPost : MPost :=
  { id := some (.s "1")
    content := some []
    created_at := some "2024-01-01T00:00:00Z"
    account := some ⟨some "A", some "a"⟩
    visibility := some "public"
    pinned := none
    media_attachments := some [⟨some "image", some "", none⟩] }

/-- C7 counterexample.  The claim says `externalLink` is never empty, but
converting `emptyUrlPost` succeeds and produces a resource whose
`externalLink` (and `link`) is the empty string. -/
theorem c7_counterexample :
    (convert_mastodon_to_memo 0 0 emptyUrlPost).map
      (fun m => m.resourceList.map MemoResource.externalLink) = .ok [""] := by
  simp [convert_mastodon_to_memo, convertBody, emptyUrlPost, mediaResources, bind,
    clean_html_content, forestReplace, forestStrings, collectLines, splitNl, joinSep,
    pyStripChars, Except.map]

/-- C7 (corrected).  For every media attachment of a converted post, the
resource's type and link are the attachment's type and primary url
unchanged; `externalLink` is the remote url when that is present (not
null) and non-empty, and the primary link otherwise; and `externalLink`
is non-empty whenever the primary link is non-empty (the claim's
unconditional "never empty" fails when the primary url is itself empty,
see the counterexample). -/
theorem c7_media_mapping (localOff now : Int) (p : MPost) (m : Memo)
    (hok : convert_mastodon_to_memo localOff now p = .ok m) :
    ∀ (i : Nat) (r : MemoResource), m.resourceList[i]? = some r →
      ∃ a : Media, (p.media_attachments.getD [])[i]? = some a ∧
        a.mtype = some r.type ∧ a.url = some r.link ∧
        (∀ rm, a.remote_url = some rm → rm ≠ "" → r.externalLink = rm) ∧
        ((a.remote_url = none ∨ a.remote_url = some "") → r.externalLink = r.link) ∧
        (r.link ≠ "" → r.externalLink ≠ "") := by
  obtain ⟨pid, c, ca, acct, dn, un, vis, rl, _, _, _, _, _, _, _, hrl, hm⟩ :=
    convertBody_some localOff now p m ((convert_ok_iff localOff now p m).mp hok)
  subst hm
  intro i r hir
  obtain ⟨a, ha, ht, hu, hext⟩ := mediaResources_spec _ rl hrl i r hir
  refine ⟨a, ha, ht, hu, ?_, ?_, ?_⟩
  · intro rm hrm hne
    rw [hrm] at hext
    simpa [hne] using hext
  · rintro (hnone | hempty)
    · rw [hnone] at hext; simpa using hext
    · rw [hempty] at hext; simpa using hext
  · intro hlink
    rcases hrem : a.remote_url with _ | rm
    · simp [hrem] at hext; simp [hext, hlink]
    · by_cases hrm : rm = ""
      · subst hrm; simp [hrem] at hext; simp [hext, hlink]
      · simp [hrem, hrm] at hext; simp [hext, hrm]

/-! ### Concrete example posts used by the witnesses -/

/-- Parse forest of the spec's end-to-end example body. -/
def contentEx : List Html :=
  [.elem "p" none [.text "Hi ", .elem "a" (some "http://x.co") [.text "there"]]]

/-- The spec's end-to-end example post. -/
def postEx : MPost :=
  { id := some (.n 123456789012345678)
    content := some contentEx
    created_at := some "2024-01-01T00:00:00Z"
    account := some ⟨some "A", some "a"⟩
    visibility := some "public"
    pinned := none
    media_attachments := none }

/-- The note record `postEx` converts to. -/
def memoEx : Memo :=
  { id := "123456789012345678"
    creatorId := 1
    creatorName := "A"
    creatorUsername := "a"
    createdTs := 1704067200
    updatedTs := 1704067200
    displayTs := 1704067200
    content := "Hi\nthere (http://x.co)"
    resourceList := []
    relationList := []
    visibility := "PUBLIC"
    pinned := false
    rowStatus := "NORMAL" }

theorem clean_contentEx : clean_html_content contentEx = "Hi\nthere (http://x.co)" := by
  simp [contentEx, clean_html_content, forestReplace, forestStrings, anchorText,
    collectLines, splitNl, joinSep, pyStripChars, isPyWs]

theorem convert_postEx : convert_mastodon_to_memo 0 999 postEx = .ok memoEx := by
  have h1 : datetime_to_timestamp 0 999 "2024-01-01T00:00:00Z" = 1704067200 := by decide
  have h2 : pyStrId (.n 123456789012345678) = "123456789012345678" := by
    simp [pyStrId]; rfl
  simp [convert_mastodon_to_memo, convertBody, postEx, bind, mediaResources,
    h1, h2, clean_contentEx, memoEx]

/-- Two media attachments: the first has no remote url, the second has
one. -/
def mediaList : List Media :=
  [⟨some "image", some "http://cdn/img.png", none⟩,
   ⟨some "video", some "http://cdn/v.mp4", some "http://remote/v.mp4"⟩]

/-- `postEx` with the two attachments of `mediaList`. -/
def mediaPost : MPost :=
  { postEx with media_attachments := some mediaList }

/-- The note record `mediaPost` converts to. -/
def memoM : Memo :=
  { memoEx with resourceList :=
      [⟨"image", "http://cdn/img.png", "http://cdn/img.png"⟩,
       ⟨"video", "http://cdn/v.mp4", "http://remote/v.mp4"⟩] }

theorem convert_mediaPost : convert_mastodon_to_memo 0 999 mediaPost = .ok memoM := by
  have h1 : datetime_to_timestamp 0 999 "2024-01-01T00:00:00Z" = 1704067200 := by decide
  have h2 : pyStrId (.n 123456789012345678) = "123456789012345678" := by
    simp [pyStrId]; rfl
  simp [convert_mastodon_to_memo, convertBody, mediaPost, mediaList, postEx, bind,
    mediaResources, h1, h2, clean_contentEx, memoM, memoEx]

/-- C8 witness: converting the example post with upstream visibility
`public` yields output visibility `PUBLIC`. -/
theorem c8_witness : memoEx.visibility = "PUBLIC" :=
  (c8_visibility_collapse 0 999 postEx memoEx "public" convert_postEx rfl).1.mpr rfl

/-- C6 witness: the example post's numeric id comes out as its decimal
string. -/
theorem c6_witness : memoEx.id = "123456789012345678" := by
  have h := (c6_id_stringified 0 999 postEx memoEx convert_postEx).1
    123456789012345678 rfl
  rw [h]; rfl

/-- C7 witness: in the converted `mediaPost`, the attachment without a
remote url gets `externalLink` equal to its primary link, and the one
with a remote url gets that remote url. -/
theorem c7_witness :
    memoM.resourceList[0]?.map MemoResource.externalLink = some "http://cdn/img.png" ∧
    memoM.resourceList[1]?.map MemoResource.externalLink = some "http://remote/v.mp4" := by
  constructor
  · obtain ⟨a, ha, ht, hu, hrm, hboth, hne⟩ :=
      c7_media_mapping 0 999 mediaPost memoM convert_mediaPost 0
        ⟨"image", "http://cdn/img.png", "http://cdn/img.png"⟩ (by rfl)
    have ha2 : a = ⟨some "image", some "http://cdn/img.png", none⟩ := by
      simp [mediaPost, mediaList, postEx] at ha
      exact ha.symm
    have hb := hboth (by rw [ha2]; exact Or.inl rfl)
    simp [memoM, memoEx, hb]
  · obtain ⟨a, ha, ht, hu, hrm, hboth, hne⟩ :=
      c7_media_mapping 0 999 mediaPost memoM convert_mediaPost 1
        ⟨"video", "http://cdn/v.mp4", "http://remote/v.mp4"⟩ (by rfl)
    have ha2 : a = ⟨some "video", some "http://cdn/v.mp4", some "http://remote/v.mp4"⟩ := by
      simp [mediaPost, mediaList, postEx] at ha
      exact ha.symm
    have hb := hrm "http://remote/v.mp4" (by rw [ha2]) (by decide)
    simp [memoM, memoEx, hb]

/-! ### Claim C5: timestamp normalizer -/

/-- C5 (confirmed).  For a string ending in `Z` (and containing no other
`Z`), the normalizer returns the truncation to whole seconds of the
timestamp obtained by parsing the string with an explicit `+00:00`
offset in place of the `Z`; any string the parser rejects yields the
current UTC time instead of an error; and the truncation rounds toward
zero, never to nearest. -/
theorem c5_timestamp_normalizer :
    (∀ (localOff now : Int) (s : String) (dt : PyDt),
        s.data.getLast? = some 'Z' →
        'Z' ∉ s.data.dropLast →
        fromisoformat (s.data.dropLast ++ ("+00:00".data)) = some dt →
        datetime_to_timestamp localOff now s = pyInt (dtTimestamp localOff dt)) ∧
    (∀ (localOff now : Int) (s : String),
        fromisoformat (replaceZ s.data) = none →
        datetime_to_timestamp localOff now s = now) ∧
    pyInt (7, 900000) = 7 ∧ pyInt (-1, 500000) = 0 := by
  have key : ∀ l : List Char, l.getLast? = some 'Z' → 'Z' ∉ l.dropLast →
      replaceZ l = l.dropLast ++ ("+00:00".data) := by
    intro l
    induction l with
    | nil => intro h; simp at h
    | cons c r ih =>
      intro hlast hnot
      cases r with
      | nil =>
        simp at hlast
        subst hlast
        rfl
      | cons d r2 =>
        rw [List.getLast?_cons_cons] at hlast
        have hd : List.dropLast (c :: d :: r2) = c :: List.dropLast (d :: r2) := rfl
        rw [hd] at hnot
        simp at hnot
        have hcz : ¬(c = 'Z') := fun h => hnot.1 h.symm
        have hrec := ih hlast hnot.2
        rw [hd, replaceZ, if_neg hcz, hrec]
        rfl
  refine ⟨?_, ?_, by decide, by decide⟩
  · intro localOff now s dt h1 h2 h3
    unfold datetime_to_timestamp
    rw [key s.data h1 h2, h3]
  · intro localOff now s h
    unfold datetime_to_timestamp
    rw [h]

/-- C5 witness: the canonical example timestamp, under a non-UTC local
timezone (offset 3600 s), still maps to the UTC epoch second 1704067200,
and a malformed string falls back to the supplied current time. -/
theorem c5_witness :
    datetime_to_timestamp 3600 999 "2024-01-01T00:00:00Z" = 1704067200 ∧
    datetime_to_timestamp 3600 42 "not-a-date" = 42 := by
  constructor
  · have h := c5_timestamp_normalizer.1 3600 999 "2024-01-01T00:00:00Z"
      ⟨1704067200, 0, some 0⟩ (by decide) (by decide) (by decide)
    rw [h]; decide
  · exact c5_timestamp_normalizer.2.1 3600 42 "not-a-date" (by decide)

/-! ### Claim C9: account fetch fallback -/

/-- C9 counterexample.  The claim says every failure of the account fetch
returns the placeholder; but an upstream HTTP 500 makes the function
raise `HTTPException(500, failed-to-fetch)` instead of returning the
placeholder account. -/
theorem c9_counterexample :
    get_mastodon_account_info (.status 500) =
      .error ⟨500, "Failed to fetch account info"⟩ := rfl

/-- C9 (corrected).  Only a non-HTTP-status failure (network error, bad
JSON, ...) is swallowed into the placeholder account; an HTTP status
error propagates as an `HTTPException` (401 surfaced distinctly, any
other status as a failed-to-fetch error), and a success passes the
profile through. -/
theorem c9_account_fallback :
    (get_mastodon_account_info .exn = .ok ⟨"unknown", "Unknown User"⟩) ∧
    (∀ c : Nat, c ≠ 401 →
      get_mastodon_account_info (.status c) = .error ⟨c, "Failed to fetch account info"⟩) ∧
    (get_mastodon_account_info (.status 401) = .error ⟨401, "Authentication failed"⟩) ∧
    (∀ u d : String, get_mastodon_account_info (.ok u d) = .ok ⟨u, d⟩) := by
  refine ⟨rfl, ?_, rfl, fun u d => rfl⟩
  intro c hc
  simp [get_mastodon_account_info, hc]

/-- C9 witness: an upstream 503 status propagates as a failed-to-fetch
error rather than the placeholder. -/
theorem c9_witness :
    get_mastodon_account_info (.status 503) =
      .error ⟨503, "Failed to fetch account info"⟩ :=
  c9_account_fallback.2.1 503 (by decide)

/-! ### Claim C1: per-record conversion failures never abort a batch -/

/-- A simple valid post with the given numeric id. -/
def samplePost (i : Int) : MPost :=
  { id := some (.n i)
    content := some [Html.text "hello"]
    created_at := some "2024-01-01T00:00:00Z"
    account := some ⟨some "A", some "a"⟩
    visibility := some "public"
    pinned := none
    media_attachments := none }

/-- The note record `samplePost i` converts to. -/
def sampleMemo (i : Int) : Memo :=
  { id := toString i
    creatorId := 1
    creatorName := "A"
    creatorUsername := "a"
    createdTs := 1704067200
    updatedTs := 1704067200
    displayTs := 1704067200
    content := "hello"
    resourceList := []
    relationList := []
    visibility := "PUBLIC"
    pinned := false
    rowStatus := "NORMAL" }

theorem clean_hello : clean_html_content [Html.text "hello"] = "hello" := by
  simp [clean_html_content, forestReplace, forestStrings, collectLines, splitNl,
    joinSep, pyStripChars, isPyWs]

theorem convert_samplePost (i : Int) :
    convert_mastodon_to_memo 0 999 (samplePost i) = .ok (sampleMemo i) := by
  have h1 : datetime_to_timestamp 0 999 "2024-01-01T00:00:00Z" = 1704067200 := by decide
  simp [convert_mastodon_to_memo, convertBody, samplePost, bind, mediaResources,
    h1, clean_hello, sampleMemo, pyStrId]

/-- `samplePost 3` with its `content` key removed: conversion of this
record raises a KeyError, turned into `HTTPException(500, ...)`. -/
def badPost : MPost := { samplePost 3 with content := none }

theorem convert_badPost :
    convert_mastodon_to_memo 0 999 badPost = .error ⟨500, "Conversion error"⟩ := by
  simp [convert_mastodon_to_memo, convertBody, badPost, samplePost, bind]

/-- The batch of five posts of the claim: four valid ones and one whose
`content` key is missing. -/
def batch5 : List MPost :=
  [samplePost 1, samplePost 2, badPost, samplePost 4, samplePost 5]

/-- C1 (confirmed).  The conversion loop of `get_memos` equals converting
each record independently, dropping exactly the records whose conversion
fails and keeping all others (filtered and in order); so one failing
record never aborts the batch.  In particular, in the batch of 5 with
one record missing `content`, the other 4 convert and are returned. -/
theorem c1_batch_isolation :
    (∀ (localOff now : Int) (creatorId : Option Int) (rowStatus : Option String)
        (posts : List MPost),
      memosOf localOff now creatorId rowStatus posts =
        ((posts.filterMap fun p => (convert_mastodon_to_memo localOff now p).toOption).filter
          fun m => passCreator creatorId m && passRow rowStatus m)) ∧
    (memosOf 0 999 none (some "NORMAL") batch5).map Memo.id = ["1", "2", "4", "5"] := by
  constructor
  · intro localOff now creatorId rowStatus posts
    induction posts with
    | nil => simp [memosOf]
    | cons p rest ih =>
      cases h : convert_mastodon_to_memo localOff now p with
      | error e => simp [memosOf, h, List.filterMap_cons, Except.toOption, ih]
      | ok m =>
        by_cases hp : passCreator creatorId m && passRow rowStatus m <;>
          simp [memosOf, h, List.filterMap_cons, Except.toOption, ih, hp]
  · simp [batch5, memosOf, convert_samplePost, convert_badPost, passCreator, passRow,
      sampleMemo]
    decide

/-! ### Claim C2: a 401 aborts the walk but is masked at the endpoint -/

/-- Upstream that answers every page request with HTTP 401. -/
def env401 : Nat → PageResp := fun _ => .status 401

/-- A minimal post for walker-level tests (the walker only reads `id`). -/
def pWalk : MPost :=
  { id := some (.s "100"), content := none, created_at := none, account := none,
    visibility := none, pinned := none, media_attachments := none }

/-- Upstream whose first page succeeds and whose second page fails with
HTTP 500. -/
def envTrunc : Nat → PageResp := fun k => if k = 0 then .ok [pWalk] else .status 500

/-- C2 (code bug evidence).  A 401 page aborts the walk immediately with
the distinct `HTTPException(401, ...)` — but `get_memos` catches that
exception in its blanket `except Exception` clause and answers with the
generic 500 internal error, so the authorization failure never reaches
the endpoint's caller distinctly.  A non-auth page failure truncates the
walk and keeps the posts accumulated so far, as claimed. -/
theorem c2_auth_masked_as_internal :
    fetch_all_mastodon_posts env401 MAX_PAGES =
      ([⟨MAX_PAGE_SIZE, none⟩], .error ⟨401, "Authentication failed"⟩) ∧
    get_memos env401 0 999 none (some "NORMAL") none =
      .error ⟨500, "Internal server error"⟩ ∧
    fetch_all_mastodon_posts envTrunc MAX_PAGES =
      ([⟨MAX_PAGE_SIZE, none⟩, ⟨MAX_PAGE_SIZE, some (.s "100")⟩], .ok [pWalk]) :=
  ⟨rfl, rfl, rfl⟩

/-! ### Claim C10: falsy filter parameters at the list endpoint -/

/-- Every successfully converted record carries the constant creator id 1. -/
theorem convert_creatorId (localOff now : Int) (p : MPost) (m : Memo)
    (hok : convert_mastodon_to_memo localOff now p = .ok m) : m.creatorId = 1 := by
  obtain ⟨_, _, _, _, _, _, _, _, _, _, _, _, _, _, _, _, hm⟩ :=
    convertBody_some localOff now p m ((convert_ok_iff localOff now p m).mp hok)
  subst hm; rfl

theorem memosOf_creator0 (localOff now : Int) (rowStatus : Option String)
    (posts : List MPost) :
    memosOf localOff now (some 0) rowStatus posts =
      memosOf localOff now none rowStatus posts := by
  induction posts with
  | nil => rfl
  | cons p rest ih =>
    cases h : convert_mastodon_to_memo localOff now p with
    | error e => simp [memosOf, h, ih]
    | ok m => simp [memosOf, h, ih, passCreator]

theorem memosOf_rowEmpty (localOff now : Int) (creatorId : Option Int)
    (posts : List MPost) :
    memosOf localOff now creatorId (some "") posts =
      memosOf localOff now creatorId none posts := by
  induction posts with
  | nil => rfl
  | cons p rest ih =>
    cases h : convert_mastodon_to_memo localOff now p with
    | error e => simp [memosOf, h, ih]
    | ok m => simp [memosOf, h, ih, passRow]

theorem memosOf_creator_other (localOff now : Int) (n : Int) (rowStatus : Option String)
    (posts : List MPost) (hn0 : n ≠ 0) (hn1 : n ≠ 1) :
    memosOf localOff now (some n) rowStatus posts = [] := by
  induction posts with
  | nil => rfl
  | cons p rest ih =>
    cases h : convert_mastodon_to_memo localOff now p with
    | error e => simp [memosOf, h, ih]
    | ok m =>
      have h1 := convert_creatorId localOff now p m h
      have hpc : passCreator (some n) m = false := by
        simp [passCreator, hn0, h1]
        exact fun hq => hn1 hq.symm
      simp [memosOf, h, ih, hpc]

/-- C10 (confirmed).  At the list endpoint falsy filter parameters are
treated as absent: `limit = 0` returns the full converted list (which
always fits under the `MAX_PAGE_SIZE * MAX_PAGES` cap), `creatorId = 0`
disables the creator filter, `rowStatus` empty disables the status
filter; and since every converted record has creator id 1, any creator
id other than 0 and 1 yields an empty result. -/
theorem c10_falsy_filters :
    (∀ (env : Nat → PageResp) (localOff now : Int) (creatorId : Option Int)
        (rowStatus : Option String) (posts : List MPost),
      (fetch_all_mastodon_posts env MAX_PAGES).2 = .ok posts →
      (memosOf localOff now creatorId rowStatus posts).length ≤ MAX_PAGE_SIZE * MAX_PAGES →
      get_memos env localOff now creatorId rowStatus (some 0) =
        .ok (memosOf localOff now creatorId rowStatus posts)) ∧
    (∀ (env : Nat → PageResp) (localOff now : Int) (rowStatus : Option String)
        (limit : Option Int),
      get_memos env localOff now (some 0) rowStatus limit =
        get_memos env localOff now none rowStatus limit) ∧
    (∀ (env : Nat → PageResp) (localOff now : Int) (creatorId : Option Int)
        (limit : Option Int),
      get_memos env localOff now creatorId (some "") limit =
        get_memos env localOff now creatorId none limit) ∧
    (∀ (env : Nat → PageResp) (localOff now : Int) (n : Int)
        (rowStatus : Option String) (limit : Option Int) (posts : List MPost),
      n ≠ 0 → n ≠ 1 →
      (fetch_all_mastodon_posts env MAX_PAGES).2 = .ok posts →
      get_memos env localOff now (some n) rowStatus limit = .ok []) := by
  refine ⟨?_, ?_, ?_, ?_⟩
  · intro env localOff now creatorId rowStatus posts hfetch hlen
    unfold get_memos
    rw [hfetch]
    have hlen2 : ((memosOf localOff now creatorId rowStatus posts).length : Int) ≤
        (MAX_PAGE_SIZE : Int) * (MAX_PAGES : Int) := by
      exact_mod_cast hlen
    simp only [pyOrLen, if_pos rfl, min_eq_left hlen2, pySliceTo,
      Int.toNat_natCast, le_refl, if_pos, List.take_length]
    simp
  · intro env localOff now rowStatus limit
    unfold get_memos
    cases (fetch_all_mastodon_posts env MAX_PAGES).2 with
    | error e => rfl
    | ok posts => simp [memosOf_creator0]
  · intro env localOff now creatorId limit
    unfold get_memos
    cases (fetch_all_mastodon_posts env MAX_PAGES).2 with
    | error e => rfl
    | ok posts => simp [memosOf_rowEmpty]
  · intro env localOff now n rowStatus limit posts hn0 hn1 hfetch
    unfold get_memos
    rw [hfetch]
    simp [memosOf_creator_other localOff now n rowStatus posts hn0 hn1, pySliceTo,
      pyOrLen]

/-- Upstream with exactly one post on the first page and nothing after. -/
def envOne : Nat → PageResp := fun k => if k = 0 then .ok [samplePost 1] else .ok []

/-- C10 witness: with one convertible post upstream, `limit = 0` returns
the one-element list, `creatorId = 0` and empty `rowStatus` act like
absent filters, and `creatorId = 2` returns the empty list. -/
theorem c10_witness :
    get_memos envOne 0 999 none (some "NORMAL") (some 0) = .ok [sampleMemo 1] ∧
    get_memos envOne 0 999 (some 0) (some "NORMAL") (some 7) =
      get_memos envOne 0 999 none (some "NORMAL") (some 7) ∧
    get_memos envOne 0 999 none (some "") (some 7) =
      get_memos envOne 0 999 none none (some 7) ∧
    get_memos envOne 0 999 (some 2) (some "NORMAL") none = .ok [] := by
  have hfetch : (fetch_all_mastodon_posts envOne MAX_PAGES).2 = .ok [samplePost 1] := rfl
  have hmem : memosOf 0 999 none (some "NORMAL") [samplePost 1] = [sampleMemo 1] := by
    simp [memosOf, convert_samplePost, passCreator, passRow, sampleMemo]
  refine ⟨?_, ?_, ?_, ?_⟩
  · have h := c10_falsy_filters.1 envOne 0 999 none (some "NORMAL") [samplePost 1]
      hfetch (by rw [hmem]; decide)
    rw [h, hmem]
  · exact c10_falsy_filters.2.1 envOne 0 999 (some "NORMAL") (some 7)
  · exact c10_falsy_filters.2.2.1 envOne 0 999 none (some 7)
  · exact c10_falsy_filters.2.2.2 envOne 0 999 2 (some "NORMAL") none [samplePost 1]
      (by decide) (by decide) hfetch

/-! ### Claim C3: the pagination walker -/

/-- An upstream that serves the page sequence `pages` with no failures. -/
def okEnv (pages : Nat → List MPost) : Nat → PageResp := fun k => .ok (pages k)

/-- The posts the claim predicts: concatenate the pages in order, stopping
at the first empty page or at the page-count ceiling, whichever comes
first. -/
def walkPosts (pages : Nat → List MPost) : Nat → Nat → List MPost
  | 0, _ => []
  | fuel + 1, k =>
    match pages k with
    | [] => []
    | ps => ps ++ walkPosts pages fuel (k + 1)

/-- The requests the claim predicts: the first request carries no cursor,
each later request carries the id of the last item of the previous page,
and no request follows an empty page or the ceiling. -/
def walkReqs (pages : Nat → List MPost) : Nat → Nat → Option IdVal → List FetchReq
  | 0, _, _ => []
  | fuel + 1, k, cursor =>
    ⟨MAX_PAGE_SIZE, cursor⟩ ::
      (match pages k with
       | [] => []
       | ps => walkReqs pages fuel (k + 1) (ps.getLast?.bind MPost.id))

/-- Every served page's last item carries a truthy id (the amended claim's
restriction; Mastodon ids are non-empty). -/
def lastIdsTruthy (pages : Nat → List MPost) : Prop :=
  ∀ (k : Nat) (l : MPost), (pages k).getLast? = some l →
    ∃ v, l.id = some v ∧ truthyId v = true

theorem fetchLoop_walk (pages : Nat → List MPost) (hT : lastIdsTruthy pages) :
    ∀ (fuel k : Nat) (maxId : Option IdVal) (acc : List MPost) (reqs : List FetchReq),
      (maxId = none ∨ ∃ v, maxId = some v ∧ truthyId v = true) →
      fetchLoop (okEnv pages) fuel k maxId acc reqs =
        (reqs ++ walkReqs pages fuel k maxId, .ok (acc ++ walkPosts pages fuel k)) := by
  intro fuel
  induction fuel with
  | zero =>
    intro k maxId acc reqs _
    simp [fetchLoop, walkReqs, walkPosts]
  | succ n ih =>
    intro k maxId acc reqs hinv
    have hreq : reqOf maxId = ⟨MAX_PAGE_SIZE, maxId⟩ := by
      rcases hinv with h | ⟨v, hv, htr⟩
      · subst h; rfl
      · subst hv; simp [reqOf, htr]
    cases hp : pages k with
    | nil =>
      simp [fetchLoop, okEnv, hp, walkReqs, walkPosts, hreq]
    | cons p ps =>
      obtain ⟨l, hl⟩ : ∃ l, (p :: ps).getLast? = some l := by
        cases hgl : (p :: ps).getLast? with
        | none => simp at hgl
        | some l => exact ⟨l, rfl⟩
      obtain ⟨v, hv, htr⟩ := hT k l (by rw [hp]; exact hl)
      have hrec := ih (k + 1) (some v) (acc ++ (p :: ps)) (reqs ++ [⟨MAX_PAGE_SIZE, maxId⟩])
        (Or.inr ⟨v, rfl, htr⟩)
      simp only [fetchLoop, okEnv, hp, hreq, hl, hv, walkReqs, walkPosts, hrec]
      simp [hv]

/-- `pWalk` with the given string id. -/
def wp (s : String) : MPost := { pWalk with id := some (.s s) }

/-- Mocked pages of sizes 2, 2, 0. -/
def pagesNN0 : Nat → List MPost :=
  fun k => if k = 0 then [wp "a1", wp "a2"] else if k = 1 then [wp "a3", wp "a4"] else []

/-- Pages that never return empty. -/
def pagesInf : Nat → List MPost := fun _ => [wp "b"]

/-- A first page whose last item has the falsy id `IdVal.s empty`. -/
def pagesFalsy : Nat → List MPost :=
  fun k => if k = 0 then [wp ""] else if k = 1 then [wp "c"] else []

/-- C3 counterexample.  Under the page sequence `pagesFalsy`, the last item
of the first page has the (falsy) id `IdVal.s empty`, yet the second
request carries no max_id at all — the claim instead demands max_id equal
to that id on every request after the first. -/
theorem c3_counterexample :
    (pagesFalsy 0).getLast?.bind MPost.id = some (.s "") ∧
    (fetch_all_mastodon_posts (okEnv pagesFalsy) MAX_PAGES).1[1]? =
      some ⟨MAX_PAGE_SIZE, none⟩ ∧
    (fetch_all_mastodon_posts (okEnv pagesFalsy) MAX_PAGES).1[1]? ≠
      some ⟨MAX_PAGE_SIZE, some (.s "")⟩ := by
  refine ⟨rfl, rfl, ?_⟩
  decide

/-- C3 (corrected).  For every page sequence whose items carry truthy ids,
the walker returns exactly `walkPosts` (concatenation of the pages before
the first empty one, capped at the page ceiling) and issues exactly
`walkReqs` (no cursor on the first request, then the previous page's last
id, stopping after an empty page or at the ceiling).  In particular, for
mocked pages of sizes 2, 2, 0 it returns the first two pages' items with
three requests and no fourth, and with ceiling 2 over never-empty pages it
returns exactly two pages' worth.  (For a falsy last id the request omits
max_id — see the counterexample.) -/
theorem c3_pagination_walker :
    (∀ (pages : Nat → List MPost) (maxPages : Nat), lastIdsTruthy pages →
      fetch_all_mastodon_posts (okEnv pages) maxPages =
        (walkReqs pages maxPages 0 none, .ok (walkPosts pages maxPages 0))) ∧
    fetch_all_mastodon_posts (okEnv pagesNN0) MAX_PAGES =
      ([⟨MAX_PAGE_SIZE, none⟩, ⟨MAX_PAGE_SIZE, some (.s "a2")⟩,
        ⟨MAX_PAGE_SIZE, some (.s "a4")⟩],
       .ok [wp "a1", wp "a2", wp "a3", wp "a4"]) ∧
    fetch_all_mastodon_posts (okEnv pagesInf) 2 =
      ([⟨MAX_PAGE_SIZE, none⟩, ⟨MAX_PAGE_SIZE, some (.s "b")⟩],
       .ok [wp "b", wp "b"]) := by
  refine ⟨?_, rfl, rfl⟩
  intro pages maxPages hT
  have h := fetchLoop_walk pages hT maxPages 0 none [] [] (Or.inl rfl)
  simpa [fetch_all_mastodon_posts] using h

theorem pagesNN0_truthy : lastIdsTruthy pagesNN0 := by
  intro k l hl
  match k with
  | 0 =>
    simp [pagesNN0] at hl
    exact ⟨.s "a2", by rw [← hl]; rfl, rfl⟩
  | 1 =>
    simp [pagesNN0] at hl
    exact ⟨.s "a4", by rw [← hl]; rfl, rfl⟩
  | n + 2 =>
    simp [pagesNN0] at hl

/-- C3 witness: the general walker description applied to the concrete
2, 2, 0 page sequence. -/
theorem c3_witness :
    fetch_all_mastodon_posts (okEnv pagesNN0) 5 =
      (walkReqs pagesNN0 5 0 none, .ok (walkPosts pagesNN0 5 0)) :=
  c3_pagination_walker.1 pagesNN0 5 pagesNN0_truthy

/-! ### Claim C4: the HTML sanitizer -/

/-- A document whose second paragraph holds an anchor with a href but no
visible text. -/
def cexDoc : List Html :=
  [.elem "p" none [.text "ok"], .elem "p" none [.elem "a" (some "http://x") []]]

/-- C4 counterexample.  On an anchor with a present href and empty visible
text the claim's rule emits `" (href)"`, but the code (whose condition
also requires non-empty visible text) emits the bare empty text, so the
sanitizer differs from the claim's description. -/
theorem c4_counterexample : clean_html_content cexDoc ≠ claimClean cexDoc := by
  have h1 : clean_html_content cexDoc = "ok" := by
    simp [cexDoc, clean_html_content, forestReplace, forestStrings, anchorText,
      collectLines, splitNl, joinSep, pyStripChars, isPyWs]
  have h2 : claimClean cexDoc = "ok\n(http://x)" := by
    simp [cexDoc, claimClean, claimClean.claimReplace, claimAnchorText, forestStrings,
      splitNl, joinSep, pyStripChars, isPyWs]
  rw [h1, h2]
  decide

theorem collectLines_eq (ls : List (List Char)) :
    collectLines ls = (ls.map pyStripChars).filter (· ≠ []) := by
  induction ls with
  | nil => rfl
  | cons l rest ih =>
    by_cases h : pyStripChars l = [] <;> simp [collectLines, h, ih]

/-- Characters of a stripped line come from the line. -/
theorem mem_pyStripChars (l : List Char) (c : Char) (h : c ∈ pyStripChars l) : c ∈ l := by
  unfold pyStripChars at h
  rw [List.mem_reverse] at h
  have h2 := (List.dropWhile_sublist (l := (l.dropWhile isPyWs).reverse) isPyWs).mem h
  rw [List.mem_reverse] at h2
  exact (List.dropWhile_sublist isPyWs).mem h2

theorem splitNl_ne_nil (l : List Char) : splitNl l ≠ [] := by
  cases l with
  | nil => simp [splitNl]
  | cons c r =>
    unfold splitNl
    cases splitNl r with
    | nil => simp
    | cons g gs => by_cases h : c = '\n' <;> simp [h]

/-- Characters of any group of the split come from the split text. -/
theorem mem_splitNl (l : List Char) :
    ∀ g ∈ splitNl l, ∀ c ∈ g, c ∈ l := by
  induction l with
  | nil =>
    intro g hg c hc
    simp [splitNl] at hg
    subst hg
    simp at hc
  | cons c0 r ih =>
    intro g hg c hc
    obtain ⟨g0, gs, heq⟩ : ∃ g0 gs, splitNl r = g0 :: gs := by
      cases hs : splitNl r with
      | nil => exact absurd hs (splitNl_ne_nil r)
      | cons g0 gs => exact ⟨g0, gs, rfl⟩
    unfold splitNl at hg
    rw [heq] at hg
    by_cases hnl : c0 = '\n'
    · simp only [hnl, if_pos rfl] at hg
      rcases List.mem_cons.mp hg with rfl | hg2
      · simp at hc
      · have : c ∈ r := ih g (heq ▸ hg2) c hc
        exact List.mem_cons_of_mem c0 this
    · simp only [if_neg hnl] at hg
      rcases List.mem_cons.mp hg with rfl | hg2
      · rcases List.mem_cons.mp hc with rfl | hcg0
        · exact List.mem_cons_self c r
        · have hg0 : g0 ∈ splitNl r := heq ▸ List.mem_cons_self g0 gs
          exact List.mem_cons_of_mem c0 (ih g0 hg0 c hcg0)
      · have hgm : g ∈ splitNl r := heq ▸ List.mem_cons_of_mem g0 hg2
        exact List.mem_cons_of_mem c0 (ih g hgm c hc)

/-- Every kept line of the loop is the strip of a source line. -/
theorem mem_collectLines (ls : List (List Char)) :
    ∀ g ∈ collectLines ls, ∃ l ∈ ls, g = pyStripChars l := by
  induction ls with
  | nil => simp [collectLines]
  | cons l rest ih =>
    intro g hg
    unfold collectLines at hg
    by_cases h : pyStripChars l = []
    · simp only [h, ne_eq, not_true_eq_false, if_neg, if_false] at hg
      obtain ⟨l2, hl2, hgl2⟩ := ih g (by simpa [h] using hg)
      exact ⟨l2, List.mem_cons_of_mem l hl2, hgl2⟩
    · simp only [ne_eq, h, not_false_eq_true, if_pos, if_true] at hg
      rcases List.mem_cons.mp hg with rfl | hg2
      · exact ⟨l, List.mem_cons_self l rest, rfl⟩
      · obtain ⟨l2, hl2, hgl2⟩ := ih g hg2
        exact ⟨l2, List.mem_cons_of_mem l hl2, hgl2⟩

/-- Characters of a join come from the separator or from some group. -/
theorem mem_joinSep (sep : List Char) :
    ∀ (ls : List (List Char)) (c : Char), c ∈ joinSep sep ls →
      c ∈ sep ∨ ∃ g ∈ ls, c ∈ g
  | [], c => by simp [joinSep]
  | [g], c => by
    intro h
    simp only [joinSep] at h
    exact Or.inr ⟨g, List.mem_cons_self g [], h⟩
  | g :: g2 :: gs, c => by
    intro h
    simp only [joinSep, List.append_assoc, List.mem_append] at h
    rcases h with hg | hsep | hrest
    · exact Or.inr ⟨g, List.mem_cons_self g _, hg⟩
    · exact Or.inl hsep
    · rcases mem_joinSep sep (g2 :: gs) c hrest with hs | ⟨g3, hg3, hcg3⟩
      · exact Or.inl hs
      · exact Or.inr ⟨g3, List.mem_cons_of_mem g hg3, hcg3⟩

/-- Strings of an untouched forest with no `<` contain no `<`. -/
theorem noLt_strings : ∀ l : List Html, noLtForest l = true →
    ∀ s ∈ forestStrings l, s.all (· ≠ '<') = true
  | [] => by simp [forestStrings]
  | .text t :: rest => by
    intro h s hs
    simp only [noLtForest, Bool.and_eq_true] at h
    simp only [forestStrings, List.mem_cons] at hs
    rcases hs with rfl | hs
    · exact h.1
    · exact noLt_strings rest h.2 s hs
  | .elem tag href cs :: rest => by
    intro h s hs
    simp only [noLtForest, Bool.and_eq_true] at h
    simp only [forestStrings, List.mem_append] at hs
    rcases hs with hs | hs
    · exact noLt_strings cs h.1.2 s hs
    · exact noLt_strings rest h.2 s hs
termination_by l => sizeOf l
decreasing_by all_goals (simp <;> omega)

/-- The anchor replacement never introduces `<`. -/
theorem anchorText_noLt (href : Option String) (cs : List Html)
    (hh : (href.getD "").data.all (· ≠ '<') = true)
    (hcs : ∀ s ∈ forestStrings cs, s.all (· ≠ '<') = true) :
    (anchorText href cs).all (· ≠ '<') = true := by
  have hflat : ((forestStrings cs).flatten).all (· ≠ '<') = true := by
    rw [List.all_eq_true]
    intro c hc
    rw [List.mem_flatten] at hc
    obtain ⟨s, hsmem, hcs2⟩ := hc
    exact List.all_eq_true.mp (hcs s hsmem) c hcs2
  simp only [anchorText]
  split
  · have hs1 : ((" (".data).all fun c => c ≠ '<') = true := by decide
    have hs2 : (((")".data)).all fun c => c ≠ '<') = true := by decide
    rw [List.all_eq_true] at hflat hh hs1 hs2 ⊢
    intro c hc
    simp only [List.mem_append] at hc
    rcases hc with ((h1 | h2) | h3) | h4
    exacts [hflat c h1, hs1 c h2, hh c h3, hs2 c h4]
  · exact hflat

/-- Strings of the anchor-rewritten forest contain no `<` when the input
forest contains none. -/
theorem noLt_strings_replace : ∀ l : List Html, noLtForest l = true →
    ∀ s ∈ forestStrings (forestReplace l), s.all (· ≠ '<') = true
  | [] => by simp [forestReplace, forestStrings]
  | .text t :: rest => by
    intro h s hs
    simp only [noLtForest, Bool.and_eq_true] at h
    simp only [forestReplace, forestStrings, List.mem_cons] at hs
    rcases hs with rfl | hs
    · exact h.1
    · exact noLt_strings_replace rest h.2 s hs
  | .elem tag href cs :: rest => by
    intro h s hs
    simp only [noLtForest, Bool.and_eq_true] at h
    by_cases htag : tag = "a"
    · rw [forestReplace, if_pos htag] at hs
      simp only [forestStrings, List.mem_cons] at hs
      rcases hs with rfl | hs
      · exact anchorText_noLt href cs h.1.1 (noLt_strings cs h.1.2)
      · exact noLt_strings_replace rest h.2 s hs
    · rw [forestReplace, if_neg htag] at hs
      simp only [forestStrings, List.mem_append] at hs
      rcases hs with hs | hs
      · exact noLt_strings_replace cs h.1.2 s hs
      · exact noLt_strings_replace rest h.2 s hs
termination_by l => sizeOf l
decreasing_by all_goals (simp <;> omega)

/-- C4 (corrected).  The sanitizer equals the amended description: anchors
are replaced by `"text (href)"` exactly when href and visible text are
both non-empty and differ (the original claim omitted the non-empty-text
condition, see the counterexample), the extracted text is split at
newlines, every line stripped, empty lines dropped, order preserved; and
the output contains no `<` character whenever the document's text and
href values contain none (no markup survives). -/
theorem c4_sanitizer :
    (∀ doc : List Html, clean_html_content doc = amendedClean doc) ∧
    (∀ doc : List Html, noLtForest doc = true →
      (clean_html_content doc).data.all (· ≠ '<') = true) := by
  constructor
  · intro doc
    show (⟨joinSep ['\n'] (collectLines (splitNl
        (joinSep ['\n'] (forestStrings (forestReplace doc)))))⟩ : String) =
      ⟨joinSep ['\n'] ((((splitNl (joinSep ['\n']
        (forestStrings (forestReplace doc)))).map pyStripChars).filter (· ≠ [])))⟩
    rw [collectLines_eq]
  · intro doc hno
    show (joinSep ['\n'] (collectLines (splitNl
      (joinSep ['\n'] (forestStrings (forestReplace doc)))))).all (· ≠ '<') = true
    rw [List.all_eq_true]
    intro c hc
    rcases mem_joinSep ['\n'] _ c hc with hsep | ⟨g, hg, hcg⟩
    · simp at hsep
      subst hsep
      decide
    · obtain ⟨l, hl, rfl⟩ := mem_collectLines _ g hg
      have hcl : c ∈ l := mem_pyStripChars l c hcg
      have hct : c ∈ joinSep ['\n'] (forestStrings (forestReplace doc)) :=
        mem_splitNl _ l hl c hcl
      rcases mem_joinSep ['\n'] _ c hct with hsep | ⟨s, hsm, hcs⟩
      · simp at hsep
        subst hsep
        decide
      · exact List.all_eq_true.mp (noLt_strings_replace doc hno s hsm) c hcs

/-- C4 witness: on the example body the sanitizer agrees with the amended
description and its output contains no `<`. -/
theorem c4_witness :
    clean_html_content contentEx = amendedClean contentEx ∧
    (clean_html_content contentEx).data.all (· ≠ '<') = true := by
  refine ⟨c4_sanitizer.1 contentEx, c4_sanitizer.2 contentEx ?_⟩
  simp [noLtForest, contentEx]

end M2M
